import Mathlib

/-!
# Verification of the Template Resolution & Materialization Engine of `create-mcp`

This development gives a shallow embedding, in Lean 4, of the decision logic of
`src/bin/create-mcp.js`: template-reference classification, transport-type
inference, snapshot materialization (file copying with the engine-private
control-file filter), the GitHub-template handler's success/failure paths,
manifest metadata rewriting and customization merging, README text rewriting,
the config-instructions resolver, and the placeholder-substitution /
re-parse step used when printing configuration instructions.

JavaScript strings are modelled as Lean `String`s (operating on `String.data`,
their character lists); JSON documents as the inductive `Jval`; JavaScript
objects as association lists with in-place update (`objSet`), matching the
semantics of property assignment and object-spread; filesystem snapshots as
lists of `(path, content)` entries; and fallible operations as `Option` /
`Except` values.
-/

set_option autoImplicit false
set_option maxRecDepth 200000

namespace CreateMcp

/-! ## Basic character-list string helpers

`isStartOf pat l` decides whether `pat` begins `l`; `hasSubList`,
`strContains`, `strStartsWith`, `strEndsWith` embed the JavaScript string
methods `includes`, `startsWith`, `endsWith`. -/

def isStartOf : List Char → List Char → Bool
  | [], _ => true
  | _ :: _, [] => false
  | a :: as, b :: bs => a == b && isStartOf as bs

def hasSubList (pat : List Char) : List Char → Bool
  | [] => isStartOf pat []
  | b :: bs => isStartOf pat (b :: bs) || hasSubList pat bs

/-- Embedding of JavaScript `s.includes(pat)`. -/
def strContains (s pat : String) : Bool :=
  hasSubList pat.data s.data

/-- Embedding of JavaScript `s.startsWith(pat)`. -/
def strStartsWith (s pat : String) : Bool :=
  isStartOf pat.data s.data

/-- Embedding of JavaScript `s.endsWith(pat)`. -/
def strEndsWith (s pat : String) : Bool :=
  isStartOf pat.data.reverse s.data.reverse

/-- Embedding of JavaScript `s.split(sep)` for a one-character separator:
splits into the (always nonempty) list of separator-free groups. -/
def splitOnChar (sep : Char) : List Char → List (List Char)
  | [] => [[]]
  | c :: rest =>
    if c = sep then [] :: splitOnChar sep rest
    else
      match splitOnChar sep rest with
      | [] => [[c]]
      | g :: gs => (c :: g) :: gs

def jsSplit (s : String) (sep : Char) : List String :=
  (splitOnChar sep s.data).map String.mk

/-! ## JSON documents and JavaScript object semantics -/

/-- JSON values, as far as the engine's documents need them: strings and
objects (association lists preserving key order, as `JSON.parse` /
`JSON.stringify` do). -/
inductive Jval where
  | str : String → Jval
  | obj : List (String × Jval) → Jval

mutual

def jvalBeq : Jval → Jval → Bool
  | .str a, .str b => a == b
  | .obj a, .obj b => jfieldsBeq a b
  | .str _, .obj _ => false
  | .obj _, .str _ => false

def jfieldsBeq : List (String × Jval) → List (String × Jval) → Bool
  | [], [] => true
  | p :: r, q :: s => p.1 == q.1 && jvalBeq p.2 q.2 && jfieldsBeq r s
  | [], _ :: _ => false
  | _ :: _, [] => false

end

mutual

theorem jvalBeq_eq : ∀ a b : Jval, jvalBeq a b = true → a = b
  | .str x, .str y => fun h => by
    simp only [jvalBeq, beq_iff_eq] at h
    exact congrArg Jval.str h
  | .obj x, .obj y => fun h => by
    simp only [jvalBeq] at h
    exact congrArg Jval.obj (jfieldsBeq_eq x y h)
  | .str _, .obj _ => fun h => by simp [jvalBeq] at h
  | .obj _, .str _ => fun h => by simp [jvalBeq] at h

theorem jfieldsBeq_eq :
    ∀ a b : List (String × Jval), jfieldsBeq a b = true → a = b
  | [], [] => fun _ => rfl
  | p :: r, q :: s => fun h => by
    simp only [jfieldsBeq, Bool.and_eq_true, beq_iff_eq] at h
    obtain ⟨⟨h1, h2⟩, h3⟩ := h
    have e2 : p.2 = q.2 := jvalBeq_eq p.2 q.2 h2
    have e3 : r = s := jfieldsBeq_eq r s h3
    cases p; cases q; simp_all
  | [], _ :: _ => fun h => by simp [jfieldsBeq] at h
  | _ :: _, [] => fun h => by simp [jfieldsBeq] at h

end

mutual

theorem jvalBeq_rfl : ∀ a : Jval, jvalBeq a a = true
  | .str x => by simp [jvalBeq]
  | .obj x => by simpa [jvalBeq] using jfieldsBeq_rfl x

theorem jfieldsBeq_rfl : ∀ a : List (String × Jval), jfieldsBeq a a = true
  | [] => rfl
  | p :: r => by simp [jfieldsBeq, jvalBeq_rfl p.2, jfieldsBeq_rfl r]

end

instance : DecidableEq Jval := fun a b =>
  if h : jvalBeq a b = true then .isTrue (jvalBeq_eq a b h)
  else .isFalse (fun he => h (he ▸ jvalBeq_rfl a))

/-- JavaScript truthiness of the values `Jval` can take: the empty string is
falsy, every other string and every object is truthy. -/
def jTruthy : Jval → Bool
  | .str s => s ≠ ""
  | .obj _ => true

/-- Property read `v.k` on a JSON value: defined for objects, `undefined`
(here `none`) otherwise. -/
def jField : Jval → String → Option Jval
  | .obj fs, k => fs.find? (fun p => p.1 = k) |>.map (·.2)
  | .str _, _ => none

/-- Association-list read, embedding JavaScript property lookup `o[k]`. -/
def objGet {α : Type} : List (String × α) → String → Option α
  | [], _ => none
  | p :: rest, k => if p.1 = k then some p.2 else objGet rest k

/-- Association-list write, embedding JavaScript property assignment
`o[k] = v` (and the override position of object spread): an existing key is
updated in place, a new key is appended at the end. -/
def objSet {α : Type} : List (String × α) → String → α → List (String × α)
  | [], k, v => [(k, v)]
  | p :: rest, k, v =>
    if p.1 = k then (k, v) :: rest else p :: objSet rest k v

/-- Embedding of the JavaScript object-spread merge `{...o, ...u}` (with `u`
given as a literal list of key/value pairs): each pair of `u` is assigned
into `o` in order. -/
def objMerge {α : Type} (o u : List (String × α)) : List (String × α) :=
  u.foldl (fun acc p => objSet acc p.1 p.2) o

/-! ## Template-reference classification (`create-mcp.js` lines 491–495) -/

/-- `const isGitHubRepo = options.template.includes("github.com")`. -/
def isGitHubRepo (template : String) : Bool :=
  strContains template "github.com"

/-- `const isCustomPath = !isGitHubRepo && !options.template.startsWith("templates/")
&& !["basic-stdio", "basic-http"].includes(options.template)`. -/
def isCustomPath (template : String) : Bool :=
  !isGitHubRepo template &&
  !strStartsWith template "templates/" &&
  !(template = "basic-stdio" || template = "basic-http")

/-- The three template source kinds of the specification's
`TemplateSourceClassifier`. -/
inductive SourceKind where
  | BuiltIn
  | LocalPath
  | RemoteRepository
deriving DecidableEq

/-- The dispatch of the action handler (lines 516–550): GitHub repo if
`isGitHubRepo`, else local path if `isCustomPath`, else built-in. A pure
string decision: no filesystem or network access occurs. -/
def classify (template : String) : SourceKind :=
  if isGitHubRepo template then .RemoteRepository
  else if isCustomPath template then .LocalPath
  else .BuiltIn

/-! ## Transport-type inference (`create-mcp.js` lines 579–587) -/

/-- `determineTransportType(configInstructions, templateName)`: returns
`configInstructions.transportType` when `configInstructions` is truthy and
carries a truthy `transportType`; otherwise `"http"` when the template name
contains `"http"` and `"stdio"` otherwise. A pure function of its two
arguments. -/
def determineTransportType (configInstructions : Option Jval)
    (templateName : String) : Jval :=
  let fallback : Jval :=
    .str (if strContains templateName "http" then "http" else "stdio")
  match configInstructions with
  | some ci =>
    if jTruthy ci then
      match jField ci "transportType" with
      | some t => if jTruthy t then t else fallback
      | none => fallback
    else fallback
  | none => fallback

/-! ## JSON serialization and parsing

`jsonStringify` embeds `JSON.stringify` (compact form, no indent argument, as
at line 960 of the source); `jsonParse` embeds `JSON.parse` restricted to the
string/object fragment the engine's documents use — any other input is a
parse failure (`none`), the model of `JSON.parse` throwing. -/

def lbrace : Char := Char.ofNat 123
def rbrace : Char := Char.ofNat 125

def escapeJsonChar (c : Char) : List Char :=
  if c = '"' then ['\\', '"']
  else if c = '\\' then ['\\', '\\']
  else if c = '\n' then ['\\', 'n']
  else if c = '\t' then ['\\', 't']
  else if c = '\r' then ['\\', 'r']
  else [c]

def escapeJsonString (s : String) : String :=
  String.mk (s.data.map escapeJsonChar).flatten

mutual

def jsonStringify : Jval → String
  | .str s => "\"" ++ escapeJsonString s ++ "\""
  | .obj fs => "\x7b" ++ jsonStringifyFields fs ++ "\x7d"

def jsonStringifyFields : List (String × Jval) → String
  | [] => ""
  | (k, v) :: rest =>
    "\"" ++ escapeJsonString k ++ "\":" ++ jsonStringify v ++
      (if rest.isEmpty then "" else ",") ++ jsonStringifyFields rest

end

def isJsonWs (c : Char) : Bool := c = ' ' || c = '\n' || c = '\t' || c = '\r'

def skipWs (l : List Char) : List Char := l.dropWhile isJsonWs

/-- Parse the body of a JSON string after the opening quote, with the JSON
escape sequences (`\u` escapes are not needed by the engine's documents and
are rejected); a raw control character is invalid JSON. The `Nat` argument is
recursion fuel only: it is always called with more fuel than characters. -/
def parseStringBody : Nat → List Char → Option (List Char × List Char)
  | 0, _ => none
  | _ + 1, [] => none
  | fuel + 1, c :: rest =>
    if c = '"' then some ([], rest)
    else if c = '\\' then
      match rest with
      | [] => none
      | e :: rest' =>
        let cont (d : Char) : Option (List Char × List Char) :=
          (parseStringBody fuel rest').map (fun p => (d :: p.1, p.2))
        if e = '"' then cont '"'
        else if e = '\\' then cont '\\'
        else if e = '/' then cont '/'
        else if e = 'n' then cont '\n'
        else if e = 't' then cont '\t'
        else if e = 'r' then cont '\r'
        else if e = 'b' then cont (Char.ofNat 8)
        else if e = 'f' then cont (Char.ofNat 12)
        else none
    else if c.toNat < 32 then none
    else (parseStringBody fuel rest).map (fun p => (c :: p.1, p.2))

mutual

def parseValue : Nat → List Char → Option (Jval × List Char)
  | 0, _ => none
  | fuel + 1, l =>
    match skipWs l with
    | [] => none
    | c :: rest =>
      if c = '"' then
        (parseStringBody fuel rest).map (fun p => (.str (String.mk p.1), p.2))
      else if c = lbrace then
        match skipWs rest with
        | [] => none
        | d :: rest2 =>
          if d = rbrace then some (.obj [], rest2)
          else (parseObjFields fuel (d :: rest2)).map (fun p => (.obj p.1, p.2))
      else none

def parseObjFields : Nat → List Char → Option (List (String × Jval) × List Char)
  | 0, _ => none
  | fuel + 1, l =>
    match skipWs l with
    | [] => none
    | c :: rest =>
      if c = '"' then
        match parseStringBody fuel rest with
        | none => none
        | some (key, rest2) =>
          match skipWs rest2 with
          | [] => none
          | c2 :: rest3 =>
            if c2 = ':' then
              match parseValue fuel rest3 with
              | none => none
              | some (v, rest4) =>
                match skipWs rest4 with
                | [] => none
                | c3 :: rest5 =>
                  if c3 = ',' then
                    (parseObjFields fuel rest5).map
                      (fun p => ((String.mk key, v) :: p.1, p.2))
                  else if c3 = rbrace then some ([(String.mk key, v)], rest5)
                  else none
            else none
      else none

end

/-- `JSON.parse`: a full-input parse; `none` models the thrown `SyntaxError`. -/
def jsonParse (s : String) : Option Jval :=
  match parseValue (s.data.length + 1) s.data with
  | none => none
  | some (v, rest) => if skipWs rest = [] then some v else none

/-! ## Filesystem snapshots, materialization and the control-file resolver -/

/-- One file of a snapshot or destination directory. -/
structure FileEntry where
  path : String
  content : String
deriving DecidableEq

def findFile (files : List FileEntry) (p : String) : Option FileEntry :=
  files.find? (fun f => f.path = p)

/-- The copy filter passed to `fs.copySync` at lines 611–613, 673–675 and
903–905: `(src) => !src.endsWith("config-instructions.json")`. -/
def copyFilter (src : String) : Bool :=
  !strEndsWith src "config-instructions.json"

/-- Materialization: the filtered copy of the snapshot into the destination
directory. -/
def materialize (snapshot : List FileEntry) : List FileEntry :=
  snapshot.filter (fun f => copyFilter f.path)

/-- The final path component of a file path (its file name). -/
def baseName (p : String) : String :=
  (jsSplit p '/').getLast?.getD p

/-- Lines 926–940 (and 616–629, 684–697): look for `config-instructions.json`
at the snapshot root.  Absent: `null`, no warning.  Present but failing
`JSON.parse`: the `catch` prints a warning (second component `true`) and the
instructions stay `null`.  Present and parsing: the parsed document. -/
def resolveConfigInstructions (files : List FileEntry) : Option Jval × Bool :=
  match findFile files "config-instructions.json" with
  | none => (none, false)
  | some f =>
    match jsonParse f.content with
    | some j => (some j, false)
    | none => (none, true)

/-- The result descriptor each template handler returns (lines 644–648,
699–703, 942–946). -/
structure MaterializationResult where
  templateName : String
  transportType : Jval
  configInstructions : Option Jval
deriving DecidableEq

/-- `const templateName = repoUrl.split("/").pop()`. -/
def repoTemplateName (repoUrl : String) : String :=
  (jsSplit repoUrl '/').getLast?.getD ""

/-- `fs.removeSync(path.join(tempDir, ".git"))`: drop the clone's
version-control metadata (paths relative to the clone root). -/
def removeGitDir (files : List FileEntry) : List FileEntry :=
  files.filter (fun f => !(f.path = ".git" || strStartsWith f.path ".git/"))

/-- The two directories `handleGitHubTemplate` touches: the destination
project directory and the process-unique `.temp-<timestamp>` clone directory
(`none` = the directory does not exist). -/
structure FsState where
  dest : Option (List FileEntry)
  temp : Option (List FileEntry)
deriving DecidableEq

/-- Outcome of `execSync("git clone ...")`: on success the cloned file tree,
on failure whatever partial state the failed clone left in the temporary
directory (the tool itself creates nothing there beforehand). -/
inductive CloneResult where
  | ok (files : List FileEntry)
  | err (leftover : Option (List FileEntry))

/-- Embedding of `handleGitHubTemplate` (lines 592–653).  On clone success:
strip `.git`, copy through the control-file filter into the destination,
read the control file from the clone, delete the temporary directory, copy
the prompts directory if the tool ships one, apply the metadata rewrite
(`updateMeta` abstracts `updateProjectMetadata`, whose content-level
behaviour is modelled separately below), and return the result descriptor.
On clone failure the `catch` block only logs and rethrows: no filesystem
operation runs, so the destination is untouched and the temporary directory
keeps whatever the failed clone left. -/
def handleGitHubTemplate (repoUrl : String) (clone : CloneResult)
    (updateMeta : List FileEntry → List FileEntry) (prompts : List FileEntry)
    (s : FsState) : Except FsState (FsState × MaterializationResult) :=
  let templateName := repoTemplateName repoUrl
  match clone with
  | .err leftover => .error { dest := s.dest, temp := leftover }
  | .ok files =>
    let snapshot := removeGitDir files
    let destFiles := materialize snapshot
    let (ci, _warned) := resolveConfigInstructions snapshot
    .ok ({ dest := some (updateMeta (destFiles ++ prompts)), temp := none },
         { templateName := templateName,
           transportType := determineTransportType ci templateName,
           configInstructions := ci })

/-- The result-descriptor part of `handleBuiltInTemplate` (lines 887–947):
resolve the control file from the template directory and build the
`MaterializationResult`; the boolean is the parse-failure warning. -/
def handleBuiltInTemplateResult (templateName : String)
    (templateFiles : List FileEntry) : MaterializationResult × Bool :=
  let (ci, warned) := resolveConfigInstructions templateFiles
  ({ templateName := templateName,
     transportType := determineTransportType ci templateName,
     configInstructions := ci }, warned)

/-! ## Replacement scanners and the instruction-printing step -/

/-- Global find-and-replace of a literal pattern, embedding
`s.replace(/pat/g, repl)` for the escaped-literal patterns of lines 961–962:
leftmost-first, non-overlapping, never rescanning a replacement.  The `Nat`
argument is recursion fuel; with a nonempty pattern every step consumes at
least one input character, so `length + 1` fuel always suffices. -/
def replaceAllAux (pat repl : List Char) : Nat → List Char → List Char
  | 0, l => l
  | _ + 1, [] => []
  | fuel + 1, c :: rest =>
    if isStartOf pat (c :: rest) then
      repl ++ replaceAllAux pat repl fuel (List.drop pat.length (c :: rest))
    else c :: replaceAllAux pat repl fuel rest

def strReplaceAll (s pat repl : String) : String :=
  String.mk (replaceAllAux pat.data repl.data (s.data.length + 1) s.data)

/-- Lines 958–964: `JSON.stringify` the instructions, substitute every
occurrence of the literal tokens `${projectName}` and `${projectDir}` by raw
textual find-and-replace (no escaping), and `JSON.parse` the result
(`none` = the parse throws). -/
def processInstructions (ci : Jval) (projectName projectDir : String) :
    Option Jval :=
  jsonParse
    (strReplaceAll
      (strReplaceAll (jsonStringify ci) "$\x7bprojectName\x7d" projectName)
      "$\x7bprojectDir\x7d" projectDir)

/-- What `printConfigInstructions` ends up printing. -/
inductive InstructionsChoice where
  | custom (rendered : Jval)
  | builtinHttp
  | builtinStdio
deriving DecidableEq

/-- Embedding of `printConfigInstructions` (lines 952–1081): with truthy
custom instructions, substitute and re-parse (`Except.error` models the
`JSON.parse` exception propagating out of the `try` of the action handler);
otherwise print the built-in block selected by `transportType === "http"`. -/
def printConfigInstructions (projectName projectDir : String)
    (r : MaterializationResult) : Except Unit InstructionsChoice :=
  let builtinBlock : InstructionsChoice :=
    if r.transportType = .str "http" then .builtinHttp else .builtinStdio
  match r.configInstructions with
  | some ci =>
    if jTruthy ci then
      match processInstructions ci projectName projectDir with
      | some j => .ok (.custom j)
      | none => .error ()
    else .ok builtinBlock
  | none => .ok builtinBlock

/-! ## Manifest metadata rewriting and customization -/

/-- The manifest (`package.json`) as `JSON.parse` yields it: the fields of
the top-level object, in document order. -/
abbrev Manifest := List (String × Jval)

/-- Lines 716–719: `pkgJson.name = projectName; pkgJson.description =
description; pkgJson.author = authorName`. -/
def updatePkgMeta (m : Manifest)
    (projectName description authorName : String) : Manifest :=
  objSet (objSet (objSet m "name" (.str projectName))
    "description" (.str description)) "author" (.str authorName)

/-- The fields of an object-valued manifest entry; a missing entry spreads as
empty, the `{...undefined, ...}` case of object spread. -/
def getObjField (m : Manifest) (k : String) : List (String × Jval) :=
  match objGet m k with
  | some (.obj fs) => fs
  | _ => []

def eslintDevDeps : List (String × Jval) :=
  [("eslint", .str "^9.0.0"),
   ("@typescript-eslint/eslint-plugin", .str "^8.31.1"),
   ("@typescript-eslint/parser", .str "^8.31.1")]

def lintScripts : List (String × Jval) :=
  [("lint", .str "eslint \x27src/**/*.ts\x27"),
   ("lint:fix", .str "eslint \x27src/**/*.ts\x27 --fix")]

def prettierDevDeps : List (String × Jval) :=
  [("prettier", .str "^3.2.5")]

def prettierEslintDevDeps : List (String × Jval) :=
  [("eslint-config-prettier", .str "^9.1.0"),
   ("eslint-plugin-prettier", .str "^5.1.3")]

def formatScripts : List (String × Jval) :=
  [("format", .str "prettier --write \x27src/**/*.ts\x27")]

/-- The manifest part of `customizeTemplate` (lines 782–873): the
object-spread merges applied to `devDependencies` and `scripts` for the
enabled choices (`useEslint` = lint, `usePrettier` = format), in source
order.  The configuration files it also writes (`.eslintrc.json`,
`.prettierrc`) are separate destination files, not manifest state. -/
def customizePkg (useEslint usePrettier : Bool) (m : Manifest) : Manifest :=
  let m1 :=
    if useEslint then
      let ma := objSet m "devDependencies"
        (.obj (objMerge (getObjField m "devDependencies") eslintDevDeps))
      objSet ma "scripts"
        (.obj (objMerge (getObjField ma "scripts") lintScripts))
    else m
  if usePrettier then
    let mb := objSet m1 "devDependencies"
      (.obj (objMerge (getObjField m1 "devDependencies") prettierDevDeps))
    let mc :=
      if useEslint then
        objSet mb "devDependencies"
          (.obj (objMerge (getObjField mb "devDependencies")
            prettierEslintDevDeps))
      else mb
    objSet mc "scripts"
      (.obj (objMerge (getObjField mc "scripts") formatScripts))
  else m1

/-! ## README rewriting (`updateProjectMetadata`, lines 709–750) -/

/-- `w.charAt(0).toUpperCase() + w.slice(1)`. -/
def capWord (w : String) : String :=
  match w.data with
  | [] => ""
  | c :: cs => String.mk (c.toUpper :: cs)

/-- `projectName.split("-").map(capWord).join("")`. -/
def capitalizedName (projectName : String) : String :=
  String.join ((jsSplit projectName '-').map capWord)

/-- A match of the regex `# .+?\n` at the head of the input: `"# "`, then at
least one non-newline character — the lazy quantifier stops at the first
newline, which `.` cannot match anyway — then that newline.  Returns the
input after the match. -/
def matchHeadingAt : List Char → Option (List Char)
  | '#' :: ' ' :: c :: rest =>
    if c = '\n' then none
    else
      match rest.dropWhile (fun d => !(d = '\n')) with
      | '\n' :: rest2 => some rest2
      | _ => none
  | _ => none

/-- `readme.replace(/# .+?\n/, "# " + capitalizedName + "\n")`: no `g` flag,
so only the first (leftmost) match is replaced. -/
def replaceHeadingL (repl : List Char) : List Char → List Char
  | [] => []
  | c :: rest =>
    match matchHeadingAt (c :: rest) with
    | some rest2 => repl ++ rest2
    | none => c :: replaceHeadingL repl rest

/-- `readme.replace(/^[^\n#]+\n/, description + "\n")`: without the `m` flag
`^` anchors to the START OF THE STRING, so the pattern can only match a
nonempty leading run of characters other than `\n` and `#`, followed by a
newline. -/
def replaceDescL (desc : List Char) (l : List Char) : List Char :=
  let run := l.takeWhile (fun c => !(c = '\n') && !(c = '#'))
  match l.dropWhile (fun c => !(c = '\n') && !(c = '#')) with
  | '\n' :: rest => if run.isEmpty then l else desc ++ rest
  | _ => l

/-- The multi-line replacement stanza of lines 740–746. -/
def mcpServersStanza (projectName : String) : String :=
  "\"" ++ projectName ++
    "\": \x7b\n      \"command\": \"node\",\n      \"args\": [\n        \"/absolute/path/to/"
    ++ projectName ++ "/dist/index.js\"\n      ]\n    \x7d"

/-- A match of the regex `"[^"]+": "[^"]+"` at the head of the input (both
character classes greedy, stopping at the next quote); returns the input
after the match. -/
def matchPairAt (l : List Char) : Option (List Char) :=
  match l with
  | '"' :: rest =>
    if (rest.takeWhile (fun d => !(d = '"'))).isEmpty then none
    else
      match rest.dropWhile (fun d => !(d = '"')) with
      | '"' :: ':' :: ' ' :: '"' :: rest2 =>
        if (rest2.takeWhile (fun d => !(d = '"'))).isEmpty then none
        else
          match rest2.dropWhile (fun d => !(d = '"')) with
          | '"' :: rest3 => some rest3
          | _ => none
      | _ => none
  | _ => none

/-- `readme.replace(/"[^"]+": "[^"]+"/g, stanza)`: the `g` flag makes this
GLOBAL — every non-overlapping leftmost match is replaced, and replacements
are never rescanned.  The `Nat` argument is recursion fuel; every step
consumes at least one input character, so `length + 1` fuel always
suffices. -/
def replacePairsAux (repl : List Char) : Nat → List Char → List Char
  | 0, l => l
  | _ + 1, [] => []
  | fuel + 1, c :: rest =>
    match matchPairAt (c :: rest) with
    | some after => repl ++ replacePairsAux repl fuel after
    | none => c :: replacePairsAux repl fuel rest

def replaceAllPairs (repl s : String) : String :=
  String.mk (replacePairsAux repl.data (s.data.length + 1) s.data)

/-- The README rewrite of `updateProjectMetadata` (lines 726–748): the three
`replace` calls in source order. -/
def updateReadme (projectName description readme : String) : String :=
  let r1 := String.mk (replaceHeadingL
    ("# " ++ capitalizedName projectName ++ "\n").data readme.data)
  let r2 := String.mk (replaceDescL (description ++ "\n").data r1.data)
  replaceAllPairs (mcpServersStanza projectName) r2

/-- Embedding of `updateProjectMetadata` (lines 709–750): rewrite the
manifest if it exists, rewrite the README if it exists; a missing file is
skipped silently (`Option.map` of an absent file is a no-op), and the
function is total — no error is raised. -/
def updateProjectMetadata (projectName description authorName : String)
    (pkg : Option Manifest) (readme : Option String) :
    Option Manifest × Option String :=
  (pkg.map (fun m => updatePkgMeta m projectName description authorName),
   readme.map (updateReadme projectName description))

/-! ## Theorems for claims C1 and C2 -/

/-- C1: `determineTransportType` returns `configInstructions.transportType`
whenever the instructions document is present and carries a (truthy)
`transportType`; otherwise it returns `"http"` exactly when the template name
contains the substring `"http"`, and `"stdio"` otherwise; in particular
`determineTransportType({transportType:"http"}, "anything") = "http"`,
`determineTransportType(null, "basic-http") = "http"` and
`determineTransportType(null, "basic-stdio") = "stdio"`.  Purity and
determinism are inherent: the embedding is a function of its two arguments
alone. -/
theorem determineTransportType_spec
    (fs : List (String × Jval)) (t : Jval) (templateName : String)
    (hget : jField (.obj fs) "transportType" = some t)
    (htruthy : jTruthy t = true) :
    determineTransportType (some (.obj fs)) templateName = t ∧
    (∀ fs' : List (String × Jval), jField (.obj fs') "transportType" = none →
      determineTransportType (some (.obj fs')) templateName =
        .str (if strContains templateName "http" then "http" else "stdio")) ∧
    (determineTransportType none templateName =
      .str (if strContains templateName "http" then "http" else "stdio")) ∧
    determineTransportType (some (.obj [("transportType", .str "http")]))
      "anything" = .str "http" ∧
    determineTransportType none "basic-http" = .str "http" ∧
    determineTransportType none "basic-stdio" = .str "stdio" := by
  refine ⟨?_, ?_, ?_, by decide, by decide, by decide⟩
  · simp [determineTransportType, hget, htruthy]
    intro hfalse
    simp [jTruthy] at hfalse
  · intro fs' hnone
    simp [determineTransportType, jTruthy, hnone]
  · simp [determineTransportType]

/-- Witness for `determineTransportType_spec` at a concrete input. -/
theorem determineTransportType_spec_witness :
    determineTransportType (some (.obj [("transportType", .str "http")]))
      "anything" = .str "http" :=
  (determineTransportType_spec [("transportType", .str "http")] (.str "http")
    "anything" (by decide) (by decide)).1

/-- C2: classification precedence: a reference containing `"github.com"` is a
`RemoteRepository` regardless of any collision with a built-in name;
otherwise a reference equal to `"basic-stdio"` or `"basic-http"`, or starting
with `"templates/"`, is `BuiltIn`; every other reference is a `LocalPath`.
The classifier is a pure string decision: no filesystem or network access is
modelled because none occurs in the source. -/
theorem classify_spec (t : String) :
    (strContains t "github.com" = true → classify t = .RemoteRepository) ∧
    (strContains t "github.com" = false →
      (t = "basic-stdio" ∨ t = "basic-http" ∨ strStartsWith t "templates/" = true) →
      classify t = .BuiltIn) ∧
    (strContains t "github.com" = false → t ≠ "basic-stdio" → t ≠ "basic-http" →
      strStartsWith t "templates/" = false → classify t = .LocalPath) := by
  refine ⟨?_, ?_, ?_⟩
  · intro h
    simp [classify, isGitHubRepo, h]
  · intro h hb
    rcases hb with hb | hb | hb
    · subst hb; simp_all [classify, isGitHubRepo, isCustomPath]
    · subst hb; simp_all [classify, isGitHubRepo, isCustomPath]
    · simp [classify, isGitHubRepo, isCustomPath, h, hb]
  · intro h h1 h2 h3
    simp [classify, isGitHubRepo, isCustomPath, h, h1, h2, h3]

/-- Witness for `classify_spec`: one concrete reference per kind, including a
remote URL that collides with a built-in name. -/
theorem classify_spec_witness :
    classify "https://github.com/user/basic-stdio" = .RemoteRepository ∧
    classify "basic-http" = .BuiltIn ∧
    classify "./my-local-dir" = .LocalPath :=
  ⟨(classify_spec _).1 (by decide),
   (classify_spec _).2.1 (by decide) (Or.inr (Or.inl rfl)),
   (classify_spec _).2.2 (by decide) (by decide) (by decide) (by decide)⟩

/-! ## Theorems for claims C3 and C4 -/

theorem isStartOf_append (l r : List Char) : isStartOf l (l ++ r) = true := by
  induction l with
  | nil => rfl
  | cons a as ih => simp [isStartOf, ih]

/-- A string whose character list ends with `pat`'s characters ends with
`pat`. -/
theorem strEndsWith_of_data (s pat : String) (pre : List Char)
    (h : s.data = pre ++ pat.data) : strEndsWith s pat = true := by
  rw [strEndsWith, h, List.reverse_append]
  exact isStartOf_append _ _

/-- C3 counterexample: the copy filter tests the whole path with `endsWith`,
so a file named `my-config-instructions.json` — a different name than the
reserved control filename — is also excluded from materialization, refuting
"no file with a different name is excluded". -/
theorem materialize_excludes_other_names :
    materialize [⟨"tpl/my-config-instructions.json", "c"⟩] = [] ∧
    baseName "tpl/my-config-instructions.json" ≠ "config-instructions.json" := by
  constructor
  · decide
  · decide

/-- C3 amended: materialization copies exactly the snapshot files whose path
does not end with the string `config-instructions.json`.  In particular the
reserved control file (at the root or in any directory) never reaches the
destination, but files whose names merely end in that string are excluded as
well. -/
theorem materialize_spec (snapshot : List FileEntry) (f : FileEntry) :
    (f ∈ materialize snapshot ↔
      f ∈ snapshot ∧ strEndsWith f.path "config-instructions.json" = false) ∧
    (∀ d c, FileEntry.mk (d ++ "/config-instructions.json") c ∉
      materialize snapshot) ∧
    (∀ c, FileEntry.mk "config-instructions.json" c ∉ materialize snapshot) := by
  refine ⟨?_, ?_, ?_⟩
  · simp [materialize, List.mem_filter, copyFilter]
  · intro d c h
    rw [materialize, List.mem_filter] at h
    have he : strEndsWith (d ++ "/config-instructions.json")
        "config-instructions.json" = true := by
      apply strEndsWith_of_data _ _ (d.data ++ ['/'])
      rw [String.data_append, List.append_assoc]
      rfl
    have h2 := h.2
    simp [copyFilter, he] at h2
  · intro c h
    rw [materialize, List.mem_filter] at h
    have h2 : copyFilter "config-instructions.json" = true := h.2
    exact absurd h2 (by decide)

/-- Witness for `materialize_spec` at a concrete snapshot. -/
theorem materialize_spec_witness :
    FileEntry.mk "src/index.ts" "x" ∈
      materialize [⟨"src/index.ts", "x"⟩, ⟨"config-instructions.json", "y"⟩] ∧
    FileEntry.mk "config-instructions.json" "y" ∉
      materialize [⟨"src/index.ts", "x"⟩, ⟨"config-instructions.json", "y"⟩] :=
  ⟨(materialize_spec [⟨"src/index.ts", "x"⟩, ⟨"config-instructions.json", "y"⟩]
      ⟨"src/index.ts", "x"⟩).1.mpr ⟨by decide, by decide⟩,
   (materialize_spec [⟨"src/index.ts", "x"⟩, ⟨"config-instructions.json", "y"⟩]
      ⟨"src/index.ts", "x"⟩).2.2 "y"⟩

/-- C4 counterexample: when the clone fails, `handleGitHubTemplate` only
logs and rethrows — it never removes the temporary clone directory, so a
partially-created clone is left behind, refuting "no residual temporary
directory is left behind". -/
theorem handleGitHubTemplate_leaves_temp_on_failure :
    handleGitHubTemplate "https://github.com/u/tpl"
        (.err (some [⟨"partfile.txt", "x"⟩])) id [] ⟨none, none⟩ =
      .error ⟨none, some [⟨"partfile.txt", "x"⟩]⟩ ∧
    (some [(⟨"partfile.txt", "x"⟩ : FileEntry)] ≠
      (none : Option (List FileEntry))) := by
  constructor
  · rfl
  · intro h
    cases h

/-- C4 amended: if the remote clone fails, the invocation aborts (the error
propagates out of the handler) and the destination project directory is left
untouched, but the temporary clone directory is NOT removed by the tool: it
keeps whatever state the failed clone left.  (Only on success is the
temporary directory deleted.) -/
theorem handleGitHubTemplate_failure_spec (repoUrl : String)
    (leftover : Option (List FileEntry))
    (updateMeta : List FileEntry → List FileEntry)
    (prompts : List FileEntry) (s : FsState) :
    handleGitHubTemplate repoUrl (.err leftover) updateMeta prompts s =
      .error { dest := s.dest, temp := leftover } ∧
    (∀ files res s',
      handleGitHubTemplate repoUrl (.ok files) updateMeta prompts s =
        .ok (s', res) → s'.temp = none) := by
  constructor
  · rfl
  · intro files res s' h
    simp only [handleGitHubTemplate, Except.ok.injEq, Prod.mk.injEq] at h
    rw [← h.1]

/-! ## Association-list lemmas and theorems for claims C5 and C6 -/

theorem objGet_objSet_self {α : Type} (o : List (String × α)) (k : String)
    (v : α) : objGet (objSet o k v) k = some v := by
  induction o with
  | nil => simp [objSet, objGet]
  | cons p rest ih =>
    by_cases h : p.1 = k
    · simp [objSet, h, objGet]
    · simp [objSet, h, objGet, ih]

theorem objGet_objSet_ne {α : Type} (o : List (String × α)) (k k' : String)
    (v : α) (h : k' ≠ k) : objGet (objSet o k v) k' = objGet o k' := by
  induction o with
  | nil => simp [objSet, objGet, Ne.symm h]
  | cons p rest ih =>
    by_cases h1 : p.1 = k
    · subst h1
      simp [objSet, objGet, Ne.symm h]
    · simp only [objSet, if_neg h1]
      by_cases h2 : p.1 = k'
      · simp [objGet, h2]
      · simp [objGet, h2, ih]

theorem objSet_objSet_same {α : Type} (o : List (String × α)) (k : String)
    (v w : α) : objSet (objSet o k v) k w = objSet o k w := by
  induction o with
  | nil => simp [objSet]
  | cons p rest ih =>
    by_cases h : p.1 = k
    · simp [objSet, h]
    · simp [objSet, h, ih]

theorem objSet_of_objGet_eq {α : Type} (o : List (String × α)) (k : String)
    (v : α) (h : objGet o k = some v) : objSet o k v = o := by
  induction o with
  | nil => simp [objGet] at h
  | cons p rest ih =>
    by_cases h1 : p.1 = k
    · rw [objGet, if_pos h1] at h
      have hp := Option.some.inj h
      obtain ⟨a, b⟩ := p
      simp only at h1 hp
      simp [objSet, h1, hp]
    · rw [objGet, if_neg h1] at h
      simp [objSet, h1, ih h]

theorem objSet_objSet_comm {α : Type} (o : List (String × α)) (k k' : String)
    (v w : α) (hne : k ≠ k') (hp : (objGet o k).isSome = true) :
    objSet (objSet o k' w) k v = objSet (objSet o k v) k' w := by
  induction o with
  | nil => simp [objGet] at hp
  | cons p rest ih =>
    by_cases h1 : p.1 = k
    · simp [objSet, h1, hne, Ne.symm hne]
    · by_cases h2 : p.1 = k'
      · simp [objSet, h1, h2, hne, Ne.symm hne]
      · rw [objGet, if_neg h1] at hp
        simp [objSet, h1, h2, ih hp]

theorem objGet_objMerge_notMem {α : Type} (o u : List (String × α))
    (k : String) (h : k ∉ u.map Prod.fst) :
    objGet (objMerge o u) k = objGet o k := by
  induction u generalizing o with
  | nil => rfl
  | cons a u ih =>
    simp only [List.map_cons, List.mem_cons, not_or] at h
    show objGet (objMerge (objSet o a.1 a.2) u) k = objGet o k
    rw [ih _ h.2, objGet_objSet_ne _ _ _ _ h.1]

theorem objMerge_append {α : Type} (o u v : List (String × α)) :
    objMerge o (u ++ v) = objMerge (objMerge o u) v := by
  simp [objMerge, List.foldl_append]

theorem objMerge_idem {α : Type} (o u : List (String × α))
    (h : (u.map Prod.fst).Nodup) : objMerge (objMerge o u) u = objMerge o u := by
  induction u generalizing o with
  | nil => rfl
  | cons a u ih =>
    simp only [List.map_cons, List.nodup_cons] at h
    show objMerge (objSet (objMerge (objSet o a.1 a.2) u) a.1 a.2) u =
      objMerge (objSet o a.1 a.2) u
    rw [objSet_of_objGet_eq _ _ _
      (by rw [objGet_objMerge_notMem _ _ _ h.1]; exact objGet_objSet_self ..),
      ih _ h.2]

theorem getObjField_objSet_self (m : Manifest) (k : String)
    (fs : List (String × Jval)) :
    getObjField (objSet m k (.obj fs)) k = fs := by
  simp [getObjField, objGet_objSet_self]

theorem getObjField_objSet_ne (m : Manifest) (k k' : String) (v : Jval)
    (h : k' ≠ k) : getObjField (objSet m k v) k' = getObjField m k' := by
  simp [getObjField, objGet_objSet_ne _ _ _ _ h]

/-- The lint+format customization in closed form: one merge into
`devDependencies`, one into `scripts`. -/
theorem customizePkg_tt_eq (m : Manifest) :
    customizePkg true true m =
      objSet (objSet m "devDependencies"
        (.obj (objMerge (getObjField m "devDependencies")
          (eslintDevDeps ++ prettierDevDeps ++ prettierEslintDevDeps))))
        "scripts"
        (.obj (objMerge (getObjField m "scripts")
          (lintScripts ++ formatScripts))) := by
  have hds : ("devDependencies" : String) ≠ "scripts" := by decide
  have hsd : ("scripts" : String) ≠ "devDependencies" := by decide
  simp only [customizePkg, if_pos]
  rw [getObjField_objSet_ne _ _ _ _ hsd,
      getObjField_objSet_ne _ _ _ _ hds,
      getObjField_objSet_self,
      getObjField_objSet_self,
      getObjField_objSet_ne _ _ _ _ hsd,
      getObjField_objSet_ne _ _ _ _ hsd,
      getObjField_objSet_self,
      objSet_objSet_same,
      objSet_objSet_comm _ _ _ _ _ hds (by rw [objGet_objSet_self]; rfl),
      objSet_objSet_same, objSet_objSet_same,
      ← objMerge_append, ← objMerge_append,
      ← objMerge_append, List.append_assoc]

theorem objGet_objSet_isSome {α : Type} (o : List (String × α))
    (k k' : String) (v : α) (h : (objGet o k).isSome = true) :
    (objGet (objSet o k' v) k).isSome = true := by
  by_cases he : k = k'
  · subst he
    rw [objGet_objSet_self]
    rfl
  · rw [objGet_objSet_ne _ _ _ _ he]
    exact h

theorem objGet_objMerge_lintScripts (gs : List (String × Jval)) :
    objGet (objMerge gs lintScripts) "lint" =
      some (.str "eslint \x27src/**/*.ts\x27") := by
  show objGet (objSet (objSet gs "lint" _) "lint:fix" _) "lint" = _
  rw [objGet_objSet_ne _ _ _ _ (by decide), objGet_objSet_self]

/-- C5 counterexample: when the template's manifest already defines a `lint`
script and the lint choice is enabled, the resulting manifest holds the
ENGINE's script value, not the template's — the engine's keys come after the
spread of the template's scripts, so they overwrite on collision. -/
theorem customizePkg_overwrites_template_script :
    objGet (getObjField
        (customizePkg true true
          [("scripts", .obj [("lint", .str "template-lint")])])
        "scripts") "lint" = some (.str "eslint \x27src/**/*.ts\x27") ∧
    some (Jval.str "eslint \x27src/**/*.ts\x27") ≠
      some (Jval.str "template-lint") := by
  constructor
  · decide
  · decide

/-- C5 amended: the customization never removes an existing manifest key,
but on a script-name collision the ENGINE's value overwrites the template's:
with the lint choice enabled, the resulting `scripts.lint` is the engine's
command whatever the template defined. -/
theorem customizePkg_merge_spec (useEslint usePrettier : Bool) (m : Manifest)
    (k : String) (hk : (objGet m k).isSome = true) :
    (objGet (customizePkg useEslint usePrettier m) k).isSome = true ∧
    (∀ m' : Manifest,
      objGet (getObjField (customizePkg true usePrettier m') "scripts")
        "lint" = some (.str "eslint \x27src/**/*.ts\x27")) := by
  constructor
  · cases useEslint <;> cases usePrettier <;>
      simp only [customizePkg, if_true, if_false, Bool.false_eq_true, ite_false,
        ite_true] <;>
      repeat (first | exact hk | apply objGet_objSet_isSome)
  · intro m'
    cases usePrettier
    · simp only [customizePkg, if_true, if_false, Bool.false_eq_true,
        ite_false, ite_true]
      rw [getObjField_objSet_self]
      exact objGet_objMerge_lintScripts _
    · rw [customizePkg_tt_eq, getObjField_objSet_self, objMerge_append]
      show objGet (objSet (objMerge _ lintScripts) "format" _) "lint" = _
      rw [objGet_objSet_ne _ _ _ _ (by decide)]
      exact objGet_objMerge_lintScripts _

/-- Witness for `customizePkg_merge_spec` at a concrete manifest. -/
theorem customizePkg_merge_spec_witness :
    (objGet (customizePkg true true
      [("name", .str "x"), ("scripts", .obj [("lint", .str "t")])])
      "name").isSome = true ∧
    objGet (getObjField (customizePkg true true
      [("name", .str "x"), ("scripts", .obj [("lint", .str "t")])])
      "scripts") "lint" = some (.str "eslint \x27src/**/*.ts\x27") :=
  ⟨(customizePkg_merge_spec true true
      [("name", .str "x"), ("scripts", .obj [("lint", .str "t")])]
      "name" (by decide)).1,
   (customizePkg_merge_spec true true
      [("name", .str "x"), ("scripts", .obj [("lint", .str "t")])]
      "name" (by decide)).2
      [("name", .str "x"), ("scripts", .obj [("lint", .str "t")])]⟩

/-- C6: applying the `CustomizationApplier` manifest merge with choices
lint = true and format = true twice in succession produces a manifest
identical to applying it once, for every initial manifest state. -/
theorem customizePkg_idempotent (m : Manifest) :
    customizePkg true true (customizePkg true true m) =
      customizePkg true true m := by
  have hds : ("devDependencies" : String) ≠ "scripts" := by decide
  have hsd : ("scripts" : String) ≠ "devDependencies" := by decide
  rw [customizePkg_tt_eq m, customizePkg_tt_eq]
  rw [getObjField_objSet_ne _ _ _ _ hds, getObjField_objSet_self,
      getObjField_objSet_self,
      objMerge_idem _ _ (by decide), objMerge_idem _ _ (by decide),
      objSet_objSet_comm _ _ _ _ _ hds (by rw [objGet_objSet_self]; rfl),
      objSet_objSet_same, objSet_objSet_same]

/-! ## Scanner lemmas and theorems for claims C7 and C8 -/

theorem length_dropWhile_le (p : Char → Bool) (l : List Char) :
    (l.dropWhile p).length ≤ l.length := by
  induction l with
  | nil => simp
  | cons c rest ih =>
    rw [List.dropWhile_cons]
    split
    · exact Nat.le_succ_of_le ih
    · simp

theorem takeWhile_append_stop (p : Char → Bool) (a : List Char) (x : Char)
    (b : List Char) (ha : ∀ c ∈ a, p c = true) (hx : p x = false) :
    (a ++ x :: b).takeWhile p = a := by
  induction a with
  | nil => simp [List.takeWhile_cons, hx]
  | cons c a ih =>
    rw [List.cons_append, List.takeWhile_cons, ha c (by simp),
      ih (fun d hd => ha d (by simp [hd]))]
    simp

theorem dropWhile_append_stop (p : Char → Bool) (a : List Char) (x : Char)
    (b : List Char) (ha : ∀ c ∈ a, p c = true) (hx : p x = false) :
    (a ++ x :: b).dropWhile p = x :: b := by
  induction a with
  | nil => simp [List.dropWhile_cons, hx]
  | cons c a ih =>
    rw [List.cons_append, List.dropWhile_cons, ha c (by simp)]
    exact ih (fun d hd => ha d (by simp [hd]))

theorem matchPairAt_ne (c : Char) (l : List Char) (h : ¬c = '"') :
    matchPairAt (c :: l) = none := by
  rw [matchPairAt.eq_def]
  split
  · rename_i heq
    exact absurd (List.cons.inj heq.symm).1 (Ne.symm h)
  · rfl

theorem matchHeadingAt_ne (c : Char) (l : List Char) (h : ¬c = '#') :
    matchHeadingAt (c :: l) = none := by
  rw [matchHeadingAt.eq_def]
  split
  · rename_i heq
    exact absurd (List.cons.inj heq.symm).1 (Ne.symm h)
  · rfl

theorem matchPairAt_lt (l r : List Char) (h : matchPairAt l = some r) :
    r.length < l.length := by
  match l with
  | [] => cases h
  | c :: rest =>
    by_cases hc : c = '"'
    case neg =>
      rw [matchPairAt_ne c rest hc] at h
      cases h
    case pos =>
      subst hc
      rw [show matchPairAt ('"' :: rest) =
        (if (rest.takeWhile (fun d => !(d = '"'))).isEmpty then none
         else
           match rest.dropWhile (fun d => !(d = '"')) with
           | '"' :: ':' :: ' ' :: '"' :: rest2 =>
             if (rest2.takeWhile (fun d => !(d = '"'))).isEmpty then none
             else
               match rest2.dropWhile (fun d => !(d = '"')) with
               | '"' :: rest3 => some rest3
               | _ => none
           | _ => none) from rfl] at h
      split at h
      · cases h
      · split at h
        · rename_i rest2 heq2
          split at h
          · cases h
          · split at h
            · rename_i rest3 heq3
              have hr := Option.some.inj h
              subst hr
              have b2 : rest2.length + 4 ≤ rest.length := by
                have hb := length_dropWhile_le (fun d => !(d = '"')) rest
                rw [heq2] at hb
                simpa using hb
              have b3 : rest3.length + 1 ≤ rest2.length := by
                have hb := length_dropWhile_le (fun d => !(d = '"')) rest2
                rw [heq3] at hb
                simpa using hb
              simp only [List.length_cons]
              omega
            · cases h
        · cases h

theorem replacePairsAux_nil (repl : List Char) (f : Nat) :
    replacePairsAux repl f [] = [] := by
  cases f <;> rfl

theorem replacePairsAux_congr (repl : List Char) :
    ∀ f1 f2 l, l.length ≤ f1 → l.length ≤ f2 →
      replacePairsAux repl f1 l = replacePairsAux repl f2 l := by
  intro f1
  induction f1 with
  | zero =>
    intro f2 l h1 _
    rw [List.length_eq_zero.mp (Nat.le_zero.mp h1), replacePairsAux_nil,
      replacePairsAux_nil]
  | succ n ih =>
    intro f2 l h1 h2
    match l, f2 with
    | [], _ => rw [replacePairsAux_nil, replacePairsAux_nil]
    | c :: rest, 0 => exact absurd h2 (by simp)
    | c :: rest, m + 1 =>
      show (match matchPairAt (c :: rest) with
        | some after => repl ++ replacePairsAux repl n after
        | none => c :: replacePairsAux repl n rest) =
        (match matchPairAt (c :: rest) with
        | some after => repl ++ replacePairsAux repl m after
        | none => c :: replacePairsAux repl m rest)
      cases hm : matchPairAt (c :: rest) with
      | some after =>
        have hlt : after.length < rest.length + 1 := by
          simpa using matchPairAt_lt _ _ hm
        simp only [List.length_cons] at h1 h2
        show repl ++ replacePairsAux repl n after =
          repl ++ replacePairsAux repl m after
        rw [ih m after (by omega) (by omega)]
      | none =>
        simp only [List.length_cons] at h1 h2
        show c :: replacePairsAux repl n rest =
          c :: replacePairsAux repl m rest
        rw [ih m rest (by omega) (by omega)]

/-- A quote-free run passes through the global object-literal replacement
unchanged; scanning continues after it. -/
theorem replacePairsAux_pass (repl : List Char) :
    ∀ pre l f, (∀ c ∈ pre, (c = '"') = False) → (pre ++ l).length ≤ f →
      replacePairsAux repl f (pre ++ l) =
        pre ++ replacePairsAux repl (l.length + 1) l := by
  intro pre
  induction pre with
  | nil =>
    intro l f _ hf
    exact replacePairsAux_congr repl f (l.length + 1) l (by simpa using hf)
      (Nat.le_succ _)
  | cons a pre ih =>
    intro l f ha hf
    match f with
    | 0 => exact absurd hf (by simp)
    | g + 1 =>
      show (match matchPairAt (a :: (pre ++ l)) with
        | some after => repl ++ replacePairsAux repl g after
        | none => a :: replacePairsAux repl g (pre ++ l)) = _
      rw [matchPairAt_ne a _ (by simpa using ha a (by simp))]
      rw [ih l g (fun c hc => ha c (by simp [hc])) (by simp at hf ⊢; omega)]
      rfl

/-- The object-literal pattern matches `"a": "b"` and consumes exactly it. -/
theorem matchPairAt_pair (t : List Char) :
    matchPairAt ("\"a\": \"b\"".data ++ t) = some t := rfl

/-- A quote-free document passes through the global object-literal
replacement unchanged (the no-match case is a no-op). -/
theorem replacePairsAux_no_quote (repl l : List Char) (f : Nat)
    (hl : ∀ c ∈ l, ¬c = '"') (hf : l.length ≤ f) :
    replacePairsAux repl f l = l := by
  have h := replacePairsAux_pass repl l [] f (fun c hc => by simp [hl c hc])
    (by simpa using hf)
  rw [List.append_nil] at h
  rw [h, replacePairsAux_nil, List.append_nil]

theorem replaceHeadingL_no_hash (repl : List Char) (l : List Char)
    (h : ∀ c ∈ l, (c = '#') = False) : replaceHeadingL repl l = l := by
  induction l with
  | nil => rfl
  | cons c rest ih =>
    rw [replaceHeadingL, matchHeadingAt_ne c rest (by simpa using h c (by simp)),
      ih (fun d hd => h d (by simp [hd]))]

theorem replaceDescL_hash (desc : List Char) (l : List Char) :
    replaceDescL desc ('#' :: l) = '#' :: l := rfl

theorem matchHeadingAt_eq (c : Char) (cs rest : List Char) (hc : ¬c = '\n')
    (hcs : ∀ d ∈ cs, ¬d = '\n') :
    matchHeadingAt ('#' :: ' ' :: c :: (cs ++ '\n' :: rest)) = some rest := by
  rw [show matchHeadingAt ('#' :: ' ' :: c :: (cs ++ '\n' :: rest)) =
      (if c = '\n' then none
       else
         match (cs ++ '\n' :: rest).dropWhile (fun d => !(d = '\n')) with
         | '\n' :: rest2 => some rest2
         | _ => none) from rfl]
  rw [if_neg hc,
    dropWhile_append_stop _ cs '\n' rest (fun d hd => by simp [hcs d hd])
      (by simp)]
  rfl

theorem replaceHeadingL_heading (repl : List Char) (c : Char)
    (cs rest : List Char) (hc : ¬c = '\n') (hcs : ∀ d ∈ cs, ¬d = '\n') :
    replaceHeadingL repl ('#' :: ' ' :: c :: (cs ++ '\n' :: rest)) =
      repl ++ rest := by
  show (match matchHeadingAt ('#' :: ' ' :: c :: (cs ++ '\n' :: rest)) with
    | some rest2 => repl ++ rest2
    | none => '#' :: replaceHeadingL repl (' ' :: c :: (cs ++ '\n' :: rest))) =
    repl ++ rest
  rw [matchHeadingAt_eq c cs rest hc hcs]

/-- C7: `updateProjectMetadata` with identity `{name:"my-cool-server",
description:"X", author:"A"}`: the manifest's `name`, `description` and
`author` fields are overwritten with the identity's values, every other
manifest field is preserved, and for a document whose first line is a
heading, the first heading line of the rewritten document is
`# MyCoolServer` — title case obtained by capitalizing the first letter of
each hyphen-separated segment and concatenating. -/
theorem updateProjectMetadata_identity (m : Manifest) (k : String)
    (title rest : String)
    (h1 : k ≠ "name") (h2 : k ≠ "description") (h3 : k ≠ "author")
    (ht : title ≠ "") (hnl : ∀ c ∈ title.data, ¬c = '\n') :
    objGet (updatePkgMeta m "my-cool-server" "X" "A") "name" =
      some (.str "my-cool-server") ∧
    objGet (updatePkgMeta m "my-cool-server" "X" "A") "description" =
      some (.str "X") ∧
    objGet (updatePkgMeta m "my-cool-server" "X" "A") "author" =
      some (.str "A") ∧
    objGet (updatePkgMeta m "my-cool-server" "X" "A") k = objGet m k ∧
    capitalizedName "my-cool-server" = "MyCoolServer" ∧
    (updateReadme "my-cool-server" "X"
        ("# " ++ title ++ "\n" ++ rest)).data.takeWhile (fun c => !(c = '\n')) =
      "# MyCoolServer".data := by
  have hd : title.data ≠ [] := fun hh =>
    ht (String.ext (hh.trans rfl))
  obtain ⟨c, cs, hcs⟩ := List.exists_cons_of_ne_nil hd
  refine ⟨?_, ?_, ?_, ?_, by decide, ?_⟩
  · rw [updatePkgMeta, objGet_objSet_ne _ _ _ _ (by decide),
      objGet_objSet_ne _ _ _ _ (by decide), objGet_objSet_self]
  · rw [updatePkgMeta, objGet_objSet_ne _ _ _ _ (by decide),
      objGet_objSet_self]
  · rw [updatePkgMeta, objGet_objSet_self]
  · rw [updatePkgMeta, objGet_objSet_ne _ _ _ _ h3,
      objGet_objSet_ne _ _ _ _ h2, objGet_objSet_ne _ _ _ _ h1]
  · have hdoc : ("# " ++ title ++ "\n" ++ rest).data =
        '#' :: ' ' :: c :: (cs ++ '\n' :: rest.data) := by
      simp [String.data_append, hcs]
    have hrepl : ("# " ++ capitalizedName "my-cool-server" ++ "\n") =
        "# MyCoolServer\n" := by decide
    rw [updateReadme]
    rw [hrepl, hdoc,
      replaceHeadingL_heading _ c cs rest.data
        (hnl c (by simp [hcs])) (fun d hd2 => hnl d (by simp [hcs, hd2]))]
    rw [show ("# MyCoolServer\n".data ++ rest.data : List Char) =
      '#' :: (" MyCoolServer\n".data ++ rest.data) from rfl]
    rw [show replaceDescL ("X" ++ "\n").data
        ('#' :: (" MyCoolServer\n".data ++ rest.data)) =
      '#' :: (" MyCoolServer\n".data ++ rest.data) from replaceDescL_hash _ _]
    rw [replaceAllPairs]
    rw [show ('#' :: (" MyCoolServer\n".data ++ rest.data) : List Char) =
      "# MyCoolServer\n".data ++ rest.data from rfl]
    rw [replacePairsAux_pass _ _ _ _ (by decide) (by simp)]
    rw [show ("# MyCoolServer\n".data ++
        replacePairsAux (mcpServersStanza "my-cool-server").data
          (rest.data.length + 1) rest.data : List Char) =
      "# MyCoolServer".data ++ ('\n' ::
        replacePairsAux (mcpServersStanza "my-cool-server").data
          (rest.data.length + 1) rest.data) from by
        rw [show ("# MyCoolServer\n".data : List Char) =
          "# MyCoolServer".data ++ ['\n'] from rfl, List.append_assoc]
        rfl]
    exact takeWhile_append_stop _ _ '\n' _ (by decide) (by decide)

/-- Witness for `updateProjectMetadata_identity` at a concrete manifest and
document. -/
theorem updateProjectMetadata_identity_witness :
    objGet (updatePkgMeta [("name", .str "old"), ("version", .str "1.0.0")]
      "my-cool-server" "X" "A") "name" = some (.str "my-cool-server") :=
  (updateProjectMetadata_identity
    [("name", .str "old"), ("version", .str "1.0.0")] "version"
    "Old Title" "body\n" (by decide) (by decide) (by decide) (by decide)
    (by decide)).1

/-- C8 counterexample.  First: on `"# T\nolddesc\n"` the description rule
replaces nothing — `^` anchors to the start of the string, the document
starts with `#`, and `olddesc` (the first non-empty, non-heading line)
survives, though the claim requires it replaced by "X".  Second: the
object-literal rule carries the `g` flag, so BOTH matches of
`"a": "b" "c": "d"` are replaced, not only the first. -/
theorem updateReadme_counterexample :
    updateReadme "p" "X" "# T\nolddesc\n" = "# P\nolddesc\n" ∧
    "# P\nolddesc\n" ≠ "# P\nX\n" ∧
    updateReadme "p" "X" "\"a\": \"b\" \"c\": \"d\"" =
      mcpServersStanza "p" ++ " " ++ mcpServersStanza "p" := by
  refine ⟨by decide, by decide, by decide⟩

/-- C8 amended: the heading rule replaces its first match only (and is a
no-op on a document without one); the description rule is anchored to the
start of the document — it is a no-op whenever the document starts with a
heading marker, and replaces exactly the leading line when that line is
non-empty and free of `#`; the object-literal rule is GLOBAL, replacing
every match, not only the first; a rule with no match is a no-op and no
error is raised (all rewrites are total functions); a missing manifest or
documentation file is skipped silently. -/
theorem updateReadme_rules_spec (d R : String) (line rest : List Char)
    (sep doc : String)
    (hline : line ≠ [])
    (hlc : ∀ c ∈ line, ¬c = '\n' ∧ ¬c = '#')
    (hsep : ∀ c ∈ sep.data, ¬c = '"')
    (hdoc : ∀ c ∈ doc.data, ¬c = '"')
    (hdoc2 : ∀ c ∈ doc.data, ¬c = '#') :
    (∀ l : List Char, replaceDescL d.data ('#' :: l) = '#' :: l) ∧
    replaceDescL d.data (line ++ '\n' :: rest) = d.data ++ rest ∧
    replaceAllPairs R ("\"a\": \"b\"" ++ sep ++ "\"a\": \"b\"") =
      R ++ sep ++ R ∧
    replaceAllPairs R doc = doc ∧
    (∀ repl : List Char, replaceHeadingL repl doc.data = doc.data) ∧
    updateProjectMetadata "n" "d" "a" none none = (none, none) := by
  refine ⟨fun l => replaceDescL_hash _ _, ?_, ?_, ?_, ?_, rfl⟩
  · rw [replaceDescL]
    rw [takeWhile_append_stop _ line '\n' rest
      (fun c hc => by simp [(hlc c hc).1, (hlc c hc).2]) (by simp)]
    rw [dropWhile_append_stop _ line '\n' rest
      (fun c hc => by simp [(hlc c hc).1, (hlc c hc).2]) (by simp)]
    simp [List.isEmpty_iff, hline]
  · rw [replaceAllPairs]
    apply String.ext
    rw [show (R ++ sep ++ R).data = R.data ++ sep.data ++ R.data by
      simp [String.data_append]]
    rw [show ("\"a\": \"b\"" ++ sep ++ "\"a\": \"b\"").data =
      "\"a\": \"b\"".data ++ (sep.data ++ "\"a\": \"b\"".data) by
      simp [String.data_append]]
    have hstep : ∀ g t, t.length ≤ g →
        replacePairsAux R.data (g + 1) ("\"a\": \"b\"".data ++ t) =
          R.data ++ replacePairsAux R.data g t := by
      intro g t hg
      show (match matchPairAt ("\"a\": \"b\"".data ++ t) with
        | some after => R.data ++ replacePairsAux R.data g after
        | none => '"' :: replacePairsAux R.data g
            ("a\": \"b\"".data ++ t)) = _
      rw [matchPairAt_pair t]
    have hlen : ("\"a\": \"b\"".data ++ (sep.data ++ "\"a\": \"b\"".data)).length
        = sep.data.length + 16 := by simp
    rw [show ("\"a\": \"b\"".data ++
        (sep.data ++ "\"a\": \"b\"".data)).length + 1 =
      (sep.data.length + 16) + 1 from by rw [hlen]]
    rw [hstep _ _ (by simp)]
    rw [replacePairsAux_congr R.data (sep.data.length + 16)
      ((sep.data ++ "\"a\": \"b\"".data).length + 1) _ (by simp) (by simp)]
    rw [replacePairsAux_pass R.data sep.data _ _
      (fun c hc => by simp [hsep c hc]) (by simp)]
    rw [show ("\"a\": \"b\"".data : List Char) =
      "\"a\": \"b\"".data ++ [] from by simp]
    rw [show ("\"a\": \"b\"".data ++ ([] : List Char)).length + 1 = 8 + 1
      from by simp]
    rw [hstep 8 [] (by simp)]
    rw [replacePairsAux_nil]
    simp
  · rw [replaceAllPairs]
    apply String.ext
    exact replacePairsAux_no_quote _ _ _ hdoc (Nat.le_succ _)
  · intro repl
    exact replaceHeadingL_no_hash repl doc.data
      (fun c hc => by simp [hdoc2 c hc])

/-- Witness for `updateReadme_rules_spec` at concrete inputs. -/
theorem updateReadme_rules_spec_witness :
    replaceDescL "X\n".data ("intro".data ++ '\n' :: "more\n".data) =
      "X\n".data ++ "more\n".data ∧
    replaceAllPairs "R" ("\"a\": \"b\"" ++ " and " ++ "\"a\": \"b\"") =
      "R" ++ " and " ++ "R" :=
  ⟨(updateReadme_rules_spec "X\n" "R" "intro".data "more\n".data " and " "plain"
      (by decide) (by decide) (by decide) (by decide) (by decide)).2.1,
   (updateReadme_rules_spec "X\n" "R" "intro".data "more\n".data " and " "plain"
      (by decide) (by decide) (by decide) (by decide) (by decide)).2.2.1⟩

/-! ## Theorems for claims C9 and C10 -/

/-- C9: a control file that exists but fails to parse produces a warning and
`null` instructions — `resolve` does not raise — and the pipeline completes,
printing the built-in instruction block for the transport kind inferred from
the template name; an absent control file yields `null` with no warning. -/
theorem resolveConfigInstructions_spec
    (templateName projectName projectDir : String)
    (files : List FileEntry) (f : FileEntry)
    (hfind : findFile files "config-instructions.json" = some f)
    (hparse : jsonParse f.content = none) :
    resolveConfigInstructions files = (none, true) ∧
    (handleBuiltInTemplateResult templateName files).1.configInstructions =
      none ∧
    (handleBuiltInTemplateResult templateName files).2 = true ∧
    (handleBuiltInTemplateResult templateName files).1.transportType =
      .str (if strContains templateName "http" then "http" else "stdio") ∧
    printConfigInstructions projectName projectDir
        (handleBuiltInTemplateResult templateName files).1 =
      .ok (if strContains templateName "http" then .builtinHttp
        else .builtinStdio) ∧
    (∀ files' : List FileEntry,
      findFile files' "config-instructions.json" = none →
      resolveConfigInstructions files' = (none, false)) := by
  have hres : resolveConfigInstructions files = (none, true) := by
    rw [resolveConfigInstructions, hfind]
    show (match jsonParse f.content with
      | some j => (some j, false)
      | none => (none, true)) = (none, true)
    rw [hparse]
  refine ⟨hres, ?_, ?_, ?_, ?_, ?_⟩
  · simp [handleBuiltInTemplateResult, hres]
  · simp [handleBuiltInTemplateResult, hres]
  · simp [handleBuiltInTemplateResult, hres, determineTransportType]
  · cases hc : strContains templateName "http" <;>
      simp [handleBuiltInTemplateResult, hres, determineTransportType,
        printConfigInstructions, hc]
  · intro files' h
    rw [resolveConfigInstructions, h]

/-- Witness for `resolveConfigInstructions_spec` at a concrete malformed
control file. -/
theorem resolveConfigInstructions_spec_witness :
    resolveConfigInstructions [⟨"config-instructions.json", "\x7boops"⟩] =
      (none, true) :=
  (resolveConfigInstructions_spec "basic-stdio" "proj" "/w"
    [⟨"config-instructions.json", "\x7boops"⟩]
    ⟨"config-instructions.json", "\x7boops"⟩ (by decide) (by decide)).1

/-- A control-instructions document of the shape the engine documents:
string values carrying both reserved placeholders. -/
def configInstructionsExample : Jval :=
  .obj [("transportType", .str "stdio"),
        ("Claude Desktop",
          .obj [("configPath", .str "cfg.json"),
                ("instructions",
                 .str "run $\x7bprojectName\x7d from $\x7bprojectDir\x7d")])]

/-- C10: placeholder substitution is a raw textual find-and-replace over the
JSON-serialized instructions document with no escaping, after which the text
is parsed back as JSON.  A benign project name substitutes and re-parses
fine, but a project name containing a double quote makes the
post-substitution parse throw (the print step errors) — even though
materialization of the project files has already succeeded, the control file
itself being excluded from the copy. -/
theorem processInstructions_unescaped :
    (handleBuiltInTemplateResult "basic-stdio"
      [⟨"config-instructions.json",
        jsonStringify configInstructionsExample⟩]).1.configInstructions =
      some configInstructionsExample ∧
    materialize [⟨"src/index.ts", "code"⟩,
      ⟨"config-instructions.json", jsonStringify configInstructionsExample⟩] =
      [⟨"src/index.ts", "code"⟩] ∧
    processInstructions configInstructionsExample "good-name" "/w" =
      some (.obj [("transportType", .str "stdio"),
        ("Claude Desktop",
          .obj [("configPath", .str "cfg.json"),
                ("instructions", .str "run good-name from /w")])]) ∧
    processInstructions configInstructionsExample "my\"cool" "/w" = none ∧
    printConfigInstructions "my\"cool" "/w"
      (handleBuiltInTemplateResult "basic-stdio"
        [⟨"config-instructions.json",
          jsonStringify configInstructionsExample⟩]).1 =
      .error () := by
  refine ⟨by decide, by decide, by decide, by decide, by rfl⟩

end CreateMcp
